import Mathlib

/-!
Verification development for the De-stem-van-de-Amstel data-cleaning scripts.

This file gives a shallow embedding of the two transforms of the repository
that carry the interesting logic, and proves properties about them:

* `clean_and_unpack_pfas` (src/data-clean/clean_data.py): unpacking the
  `pfas_values` JSON column of a wide measurement table into tidy rows,
  coercing `value`/`less_than` to numbers, dropping rows without a numeric
  `value`, and dropping outliers above 100000.
* `filter_points_by_distance` (src/data-clean/filter_location_data.py):
  reprojecting points and an area to EPSG:28992, buffering the area, and
  selecting the points inside the buffer, returned as rows of the original
  frame.
* the `__main__` tail of clean_data.py: the Amsterdam city filter and the
  final column projection.

Machine reals (pandas floats) are modelled as `Rat`; a missing value (NaN)
is `none`.  DataFrame rows are lists of cells aligned with a list of column
names; column access is by first occurrence of the name, as in pandas
(assuming unique labels, which holds for all tables built here).
-/

/-! ## JSON values

Python values produced by `json.loads`.  `obj` uses a dedicated field-list
type so that recursion over nested objects is structural.  Python `None`
(JSON null) is `Json.null`; object key order is the JSON text order.
-/

mutual

inductive Json where
  | null : Json
  | jbool (b : Bool) : Json
  | num (q : Rat) : Json
  | str (s : String) : Json
  | arr (elems : List Json) : Json
  | obj (fields : Jfields) : Json

inductive Jfields where
  | fnil : Jfields
  | fcons (k : String) (v : Json) (tl : Jfields) : Jfields

end

/-- Builds an object field list from an ordinary Lean list (literal helper). -/
def Jfields.ofList : List (String × Json) → Jfields
  | [] => .fnil
  | (k, v) :: rest => .fcons k v (Jfields.ofList rest)

/-- Keys of a JSON object in order. -/
def Jfields.keys : Jfields → List String
  | .fnil => []
  | .fcons k _ tl => k :: Jfields.keys tl

/-- A pandas cell: `none` is NaN / missing. -/
abbrev PyVal := Option Json

/-- The raw `pfas_values` cell of one CSV row, as seen by `parse_json` in
clean_data.py: either missing (`pd.isna`), text that `json.loads` rejects
(raising `JSONDecodeError`/`TypeError`), or text parsing to a JSON value. -/
inductive Cell where
  | missing : Cell
  | malformed : Cell
  | parsed (j : Json) : Cell

/-- clean_data.py lines 37-42: missing cells and unparseable text both
become the empty list; otherwise the parsed value is returned unchanged
(whatever shape it has). -/
def parse_json : Cell → Json
  | .missing => .arr []
  | .malformed => .arr []
  | .parsed j => j

/-- A top-level JSON value as a pandas object-column element: JSON null is
Python `None`, which pandas treats as missing. -/
def pyElem : Json → PyVal
  | .null => none
  | j => some j

/-- Semantics of `df.explode` on one parsed cell (pandas `lib.explode`):
a non-empty list yields one element per entry; an empty list-like yields a
single NaN; a non-empty dict is list-like and iterates to its keys; scalars
(numbers, strings, booleans, None) pass through unchanged. -/
def explodeCell : Json → List PyVal
  | .arr [] => [none]
  | .arr xs => xs.map pyElem
  | .obj .fnil => [none]
  | .obj kvs => kvs.keys.map (fun k => some (.str k))
  | .null => [none]
  | j => [some j]

/-- Elements contributed by one row after `explode` and
`dropna(subset=['pfas_values'])`. -/
def rowItems (c : Cell) : List PyVal :=
  (explodeCell (parse_json c)).filter Option.isSome

/-- Flattening of one JSON object by `pd.json_normalize`'s
`nested_to_record`: nested dicts flatten to dotted paths, nulls become NaN,
all other values (including lists) are kept as they are. -/
def dotName (pre k : String) : String := if pre = "" then k else pre ++ "." ++ k

def flattenFields (pre : String) : Jfields → List (String × PyVal)
  | .fnil => []
  | .fcons k (.obj kvs) tl => flattenFields (dotName pre k) kvs ++ flattenFields pre tl
  | .fcons k .null tl => (dotName pre k, none) :: flattenFields pre tl
  | .fcons k v tl => (dotName pre k, some v) :: flattenFields pre tl

/-! ## Column access

pandas column access by label; `firstIdx` is the position of the first
matching label (tables built here have unique labels). -/

def firstIdx : List String → String → Option Nat
  | [], _ => none
  | x :: xs, c => if x = c then some 0 else (firstIdx xs c).map (· + 1)

/-- Membership test `name in df.columns`. -/
def colContains (cols : List String) (c : String) : Bool :=
  (firstIdx cols c).isSome

/-- Value of a named column in a row (positional lookup). -/
def getCol (cols : List String) (row : List PyVal) (c : String) : PyVal :=
  match firstIdx cols c with
  | none => none
  | some j => (row[j]?).getD none

/-- Lookup in a flattened observation; a key the observation does not have
is NaN after `json_normalize` fills the column union. -/
def lookupA : List (String × PyVal) → String → PyVal
  | [], _ => none
  | (k, v) :: rest, c => if k = c then v else lookupA rest c

/-! ## Numeric coercion

Model of `pd.to_numeric(col, errors='coerce')` on an object column:
numbers stay, booleans become 0/1, numeric text is parsed, everything
else (None, lists, dicts, non-numeric text) becomes NaN.  The string
parser covers the decimal and scientific forms `[+-]digits[.digits][e[+-]digits]`
with surrounding whitespace, the forms the data uses. -/

def digitsToNat : List Char → Nat → Nat
  | [], acc => acc
  | c :: cs, acc => digitsToNat cs (acc * 10 + (c.toNat - '0'.toNat))

def parseDigits (cs : List Char) : Option Nat :=
  if cs.isEmpty then none
  else if cs.all Char.isDigit then some (digitsToNat cs 0) else none

def expSigned (m : Rat) : List Char → Option Rat
  | '+' :: r2 => (parseDigits r2).map (fun e => m * 10 ^ e)
  | '-' :: r2 => (parseDigits r2).map (fun e => m / 10 ^ e)
  | r => (parseDigits r).map (fun e => m * 10 ^ e)

def expTail (m : Rat) : List Char → Option Rat
  | [] => some m
  | 'e' :: r => expSigned m r
  | 'E' :: r => expSigned m r
  | _ => none

def parseUnsignedNum (cs : List Char) : Option Rat :=
  let ip := cs.takeWhile Char.isDigit
  let r1 := cs.dropWhile Char.isDigit
  match r1 with
  | '.' :: r2 =>
      let fp := r2.takeWhile Char.isDigit
      let r3 := r2.dropWhile Char.isDigit
      if ip.isEmpty && fp.isEmpty then none
      else expTail ((digitsToNat (ip ++ fp) 0 : Rat) / 10 ^ fp.length) r3
  | _ => if ip.isEmpty then none else expTail (digitsToNat ip 0 : Rat) r1

/-- Python `str.strip()` at character level. -/
def stripChars (cs : List Char) : List Char :=
  ((cs.dropWhile Char.isWhitespace).reverse.dropWhile Char.isWhitespace).reverse

def parseNumString (s : String) : Option Rat :=
  match stripChars s.toList with
  | '+' :: r => parseUnsignedNum r
  | '-' :: r => (parseUnsignedNum r).map Neg.neg
  | r => parseUnsignedNum r

def to_numeric : PyVal → Option Rat
  | none => none
  | some (.num q) => some q
  | some (.str s) => parseNumString s
  | some (.jbool b) => some (if b then 1 else 0)
  | some .null => none
  | some (.arr _) => none
  | some (.obj _) => none

def embedNum : Option Rat → PyVal
  | none => none
  | some q => some (.num q)

/-- One column assignment `df[col] = pd.to_numeric(df[col], errors='coerce')`,
a no-op when the column does not exist (guarded by `if col in df_final.columns`). -/
def coerceCol (cols : List String) (name : String) (rows : List (List PyVal)) :
    List (List PyVal) :=
  match firstIdx cols name with
  | none => rows
  | some j => rows.map (fun r => r.set j (embedNum (to_numeric ((r[j]?).getD none))))

/-! ## The Tidy-Unpacker pipeline (clean_and_unpack_pfas) -/

/-- The wide input table: column names (without the `pfas_values` column,
which is held separately per row) and rows pairing the other cells with the
raw `pfas_values` cell.  `df.reset_index()` turns the default RangeIndex
into an `index` column, modelled by enumerating rows from 0. -/
structure WideTable where
  cols : List String
  rows : List (List PyVal × Cell)

def enumFromN (n : Nat) : List α → List (Nat × α)
  | [] => []
  | x :: xs => (n, x) :: enumFromN (n + 1) xs

def explodeRowF (p : Nat × (List PyVal × Cell)) : List (Nat × List PyVal × PyVal) :=
  (rowItems p.2.2).map (fun e => (p.1, p.2.1, e))

/-- Rows after `explode` and `dropna(subset=['pfas_values'])`: original
index, original cells, one kept element each. -/
def explodedKept (t : WideTable) : List (Nat × List PyVal × PyVal) :=
  ((enumFromN 0 t.rows).map explodeRowF).flatten

/-- `pd.json_normalize` requires every element to be a dict; any scalar or
list element raises (AttributeError inside json_normalize). -/
def asObj : PyVal → Except String Jfields
  | some (.obj kvs) => .ok kvs
  | _ => .error "json_normalize: data element is not a dict"

def normalizeItem (x : Nat × List PyVal × PyVal) :
    Except String (Nat × List PyVal × List (String × PyVal)) :=
  (asObj x.2.2).map (fun kvs => (x.1, x.2.1, flattenFields "" kvs))

/-- The normalized observations, or the exception `json_normalize` raises. -/
def normalized (t : WideTable) :
    Except String (List (Nat × List PyVal × List (String × PyVal))) :=
  (explodedKept t).mapM normalizeItem

def uniqAux (seen : List String) : List String → List String
  | [] => []
  | c :: rest => if seen.contains c then uniqAux seen rest
                 else c :: uniqAux (c :: seen) rest

/-- Column set of the normalized frame: union of the flattened keys in
order of first appearance. -/
def normColsOf (xs : List (Nat × List PyVal × List (String × PyVal))) : List String :=
  uniqAux [] ((xs.map (fun x => x.2.2.map Prod.fst)).flatten)

/-- Columns of `df_exploded.drop(columns=['pfas_values'])`: the `index`
column added by `reset_index` plus the original columns. -/
def leftColsT (t : WideTable) : List String := "index" :: t.cols

/-- `join(..., rsuffix='_pfas')`: a right-hand column whose name collides
with a left-hand column is kept under the suffixed name. -/
def suffixName (left : List String) (c : String) : String :=
  if colContains left c then c ++ "_pfas" else c

def finalCols (t : WideTable) (nc : List String) : List String :=
  leftColsT t ++ nc.map (suffixName (leftColsT t))

/-- One joined row: the `index` value, the original cells, then for each
normalized column the observation's value (NaN when the observation lacks
the key). -/
def joinRow (i : Nat) (vals : List PyVal) (obs : List (String × PyVal))
    (nc : List String) : List PyVal :=
  some (.num i) :: vals ++ nc.map (lookupA obs)

/-- `dropna(subset=['value'])` keeps rows whose `value` is non-missing. -/
def valueIsPresent (cols : List String) (row : List PyVal) : Bool :=
  (getCol cols row "value").isSome

/-- The outlier mask `df_final['value'] <= 100000` (NaN compares False). -/
def valueWithinBound (cols : List String) (row : List PyVal) : Bool :=
  match getCol cols row "value" with
  | some (.num q) => decide (q ≤ 100000)
  | _ => false

/-- Result of the transform, together with the two diagnostic counts the
function prints: the row count left after the missing-value drop (line 57)
and the number of rows removed by the outlier rule (lines 60-64). -/
structure TidyResult where
  cols : List String
  rows : List (List PyVal)
  rowsAfterNullFilter : Nat
  outlierRowsRemoved : Nat

/-- clean_data.py lines 29-68.  `Except.error` is an uncaught Python
exception: `json_normalize` raising on a non-dict element, or the KeyError
from `dropna(subset=['value'])` when no `value` column exists at all. -/
def clean_and_unpack_pfas (t : WideTable) : Except String TidyResult :=
  match normalized t with
  | .error e => .error e
  | .ok xs =>
    let nc := normColsOf xs
    let cols := finalCols t nc
    let rows0 := xs.map (fun x => joinRow x.1 x.2.1 x.2.2 nc)
    let rows1 := coerceCol cols "less_than" (coerceCol cols "value" rows0)
    if colContains cols "value" then
      let rows2 := rows1.filter (valueIsPresent cols)
      let rows3 := rows2.filter (valueWithinBound cols)
      .ok ⟨cols, rows3, rows2.length, rows2.length - rows3.length⟩
    else
      .error "KeyError: value"

/-! ## The main-script tail of clean_data.py (lines 109-125)

The merged table is filtered to Amsterdam rows when a `city` column exists
(otherwise the filter is skipped with a warning), and then projected onto
the allow-list columns that are actually present. -/

/-- One element of `final_df['city'].str.strip().str.lower() == 'amsterdam'`:
the `.str` accessor yields NaN on non-string cells, and NaN compares False. -/
def cityMatch : PyVal → Bool
  | some (.str s) => (stripChars s.toList).map Char.toLower = "amsterdam".toList
  | _ => false

def final_columns_to_keep : List String :=
  ["lat", "lon", "city", "country", "matrix", "year", "cas_id",
   "unit_pfas", "Use categories", "sub-use", "applications", "value"]

/-- The written table plus whether the city filter was skipped (the warning
branch of lines 119-120). -/
structure MainOutput where
  cols : List String
  rows : List (List PyVal)
  cityFilterSkipped : Bool

/-- clean_data.py lines 114-125 applied to the merged table: city filter,
then projection onto the allow-list columns present in the table (the
`index` column is never in the allow-list, so dropping it first does not
change the projection). -/
def finalizeOutput (cols : List String) (rows : List (List PyVal)) : MainOutput :=
  let rows1 := if colContains cols "city"
               then rows.filter (fun r => cityMatch (getCol cols r "city"))
               else rows
  let existing := final_columns_to_keep.filter (fun c => colContains cols c)
  { cols := existing,
    rows := rows1.map (fun r => existing.map (getCol cols r)),
    cityFilterSkipped := !colContains cols "city" }

/-! ## The Proximity-Filter (filter_location_data.py)

Geometries are modelled as finite unions of axis-aligned rectangles in the
plane over `Rat`, a subclass of polygons on which the shapely operations
used by the script (`buffer`, `union_all`, `within`) have exact arithmetic
meaning.  Coordinate reprojection (`to_crs`, backed by pyproj) is an
external collaborator and is passed in as an abstract transform per CRS
pair; it raises exactly when the frame has no declared CRS. -/

structure Rect where
  x1 : Rat
  y1 : Rat
  x2 : Rat
  y2 : Rat
deriving DecidableEq, Repr

/-- Closed membership in a rectangle. -/
def inClosedRect (R : Rect) (p : Rat × Rat) : Bool :=
  decide (R.x1 ≤ p.1) && decide (p.1 ≤ R.x2) &&
  decide (R.y1 ≤ p.2) && decide (p.2 ≤ R.y2)

/-- Open (interior) membership in a rectangle. -/
def inOpenRect (R : Rect) (p : Rat × Rat) : Bool :=
  decide (R.x1 < p.1) && decide (p.1 < R.x2) &&
  decide (R.y1 < p.2) && decide (p.2 < R.y2)

/-- Erosion of a rectangle: `buffer` with a negative distance -r. -/
def shrinkRect (R : Rect) (r : Rat) : Rect :=
  ⟨R.x1 + r, R.y1 + r, R.x2 - r, R.y2 - r⟩

/-- Distance from a point to an interval [a, b], as the clamped gap. -/
def axisGap (a b x : Rat) : Rat := max (a - x) (max 0 (x - b))

/-- Squared Euclidean distance from a point to a closed rectangle. -/
def distSq (R : Rect) (p : Rat × Rat) : Rat :=
  axisGap R.x1 R.x2 p.1 ^ 2 + axisGap R.y1 R.y2 p.2 ^ 2

/-- Shapely semantics of
`points.within(area.geometry.buffer(d).union_all())` for one point:
`buffer(d)` of a rectangle is its closed d-neighbourhood {x | dist(x,R) <= d}
(its erosion for d < 0), and `within` a polygon holds exactly on the
polygon's interior - a point on the boundary is NOT within.  For d > 0 the
interior of the buffer is {x | dist(x,R) < d}; for d <= 0 it is the open
eroded rectangle. -/
def withinBuffer (geoms : List Rect) (d : Rat) (p : Rat × Rat) : Bool :=
  geoms.any (fun R =>
    if d ≤ 0 then inOpenRect (shrinkRect R (-d)) p
    else decide (distSq R p < d * d))

/-- A point row of the GeoDataFrame: pandas index label, geometry
coordinates, and the remaining columns. -/
structure GeoPoint where
  idx : Nat
  x : Rat
  y : Rat
  attrs : List (String × PyVal)

structure PointsGDF where
  crs : Option String
  rows : List GeoPoint

structure AreaGDF where
  crs : Option String
  geoms : List Rect

/-- `gpd.GeoDataFrame()`: the frame returned from the CRS-error branch,
with no rows, no columns and no CRS. -/
def emptyGDF : PointsGDF := ⟨none, []⟩

def metric_crs : String := "EPSG:28992"

/-- Abstract pyproj transform of point coordinates between two CRSs. -/
abbrev CoordMap := String → String → Rat × Rat → Rat × Rat

/-- Abstract pyproj transform of an area geometry between two CRSs. -/
abbrev RectMap := String → String → Rect → Rect

/-- filter_location_data.py lines 5-50.  `to_crs` raises when a frame has
no declared CRS, which the function catches, reports, and turns into an
empty `gpd.GeoDataFrame()`.  Otherwise the points are reprojected, tested
against the buffered unified area, and the matching rows are returned from
the ORIGINAL frame via `points_gdf.loc[original_indices]` (`.loc` collects,
for each label in order, every row carrying that label). -/
def filter_points_by_distance (Tp : CoordMap) (Tg : RectMap)
    (points_gdf : PointsGDF) (area_gdf : AreaGDF)
    (distance_meters : Rat) : PointsGDF :=
  match points_gdf.crs, area_gdf.crs with
  | some pc, some ac =>
      let points_metric := points_gdf.rows.map (fun r =>
        { r with x := (Tp pc metric_crs (r.x, r.y)).1,
                 y := (Tp pc metric_crs (r.x, r.y)).2 })
      let area_metric := area_gdf.geoms.map (Tg ac metric_crs)
      let points_within := points_metric.filter
        (fun r => withinBuffer area_metric distance_meters (r.x, r.y))
      let original_indices := points_within.map (fun r => r.idx)
      { crs := points_gdf.crs,
        rows := (original_indices.map
          (fun l => points_gdf.rows.filter (fun r => r.idx == l))).flatten }
  | _, _ => emptyGDF

/-! ## Concrete sample data used by witnesses and counterexamples -/

def sampleWide : WideTable :=
  ⟨["unit"], [([some (.str "u")],
    .parsed (.arr [.obj (.ofList [("value", .num 5), ("unit", .str "x")])]))]⟩

def sampleRow : List PyVal :=
  [some (.num 0), some (.str "u"), some (.num 5), some (.str "x")]

def sampleTidy : TidyResult :=
  ⟨["index", "unit", "value", "unit_pfas"], [sampleRow], 1, 0⟩

example : clean_and_unpack_pfas sampleWide = .ok sampleTidy := rfl

def idMapC : CoordMap := fun _ _ p => p

def idMapR : RectMap := fun _ _ R => R

def samplePoint : GeoPoint := ⟨3, 5, 5, []⟩

def samplePts : PointsGDF := ⟨some "EPSG:28992", [samplePoint]⟩

def sampleArea : AreaGDF := ⟨some "EPSG:28992", [⟨0, 0, 10, 10⟩]⟩

def unitSquare : Rect := ⟨0, 0, 1, 1⟩

def boundaryPoint : GeoPoint := ⟨7, 0, 0, []⟩

def boundaryPts : PointsGDF := ⟨some "EPSG:28992", [boundaryPoint]⟩

def squareArea : AreaGDF := ⟨some "EPSG:28992", [unitSquare]⟩

/-- The two cell states the parsing policy turns into an empty list:
missing, or text json.loads rejects. -/
def cellBad : Cell → Bool
  | .missing => true
  | .malformed => true
  | .parsed _ => false

def wBadWide : WideTable :=
  ⟨["city"], [([some (.num 9)], .malformed),
    ([some (.str "a")], .parsed (.arr [.obj (.ofList [("value", .num 2)])]))]⟩

def wUnitWide : WideTable :=
  ⟨["unit"], [([some (.str "orig")],
    .parsed (.arr [.obj (.ofList [("unit", .str "obs"), ("value", .num 1)])]))]⟩

def wUnitObs : List (String × PyVal) :=
  [("unit", some (.str "obs")), ("value", some (.num 1))]

def wUnitXs : List (Nat × List PyVal × List (String × PyVal)) :=
  [(0, [some (.str "orig")], wUnitObs)]

def wUnitTidy : TidyResult :=
  ⟨["index", "unit", "unit_pfas", "value"],
   [[some (.num 0), some (.str "orig"), some (.str "obs"), some (.num 1)]], 1, 0⟩

-- sanity checks of the embedding on concrete data
example : rowItems .missing = [] := rfl
example : rowItems (.parsed (.arr [.obj (.ofList [("value", .num 5)]), .null])) =
    [some (.obj (.ofList [("value", .num 5)]))] := rfl
example : parseNumString "12.5" = some ((125 : Rat) / 10 ^ 1) := rfl
example : parseNumString "bad" = none := rfl
example : parseNumString " -3e2 " = some (-(3 * 10 ^ 2) : Rat) := rfl
example :
    clean_and_unpack_pfas ⟨["unit"], [([some (.str "u")],
      .parsed (.arr [.obj (.ofList [("value", .num 5), ("unit", .str "x")])]))]⟩ =
    .ok ⟨["index", "unit", "value", "unit_pfas"],
         [[some (.num 0), some (.str "u"), some (.num 5), some (.str "x")]], 1, 0⟩ := rfl

/-! ## Helper lemmas -/

theorem valueWithinBound_spec {cols : List String} {row : List PyVal}
    (h : valueWithinBound cols row = true) :
    ∃ q : Rat, getCol cols row "value" = some (.num q) ∧ q ≤ 100000 := by
  unfold valueWithinBound at h
  rcases he : getCol cols row "value" with _ | j
  · rw [he] at h; simp at h
  · cases j <;> rw [he] at h <;> simp_all

/-- Inversion of a successful run of the transform: the result is the
joined, coerced table filtered by the two masks, with the two counts. -/
theorem clean_ok_inversion {t : WideTable} {res : TidyResult}
    (hok : clean_and_unpack_pfas t = .ok res) :
    ∃ xs, normalized t = .ok xs ∧
      res.cols = finalCols t (normColsOf xs) ∧
      colContains res.cols "value" = true ∧
      res.rows = ((coerceCol res.cols "less_than"
          (coerceCol res.cols "value"
            (xs.map (fun x => joinRow x.1 x.2.1 x.2.2 (normColsOf xs))))).filter
          (valueIsPresent res.cols)).filter (valueWithinBound res.cols) ∧
      res.rowsAfterNullFilter = ((coerceCol res.cols "less_than"
          (coerceCol res.cols "value"
            (xs.map (fun x => joinRow x.1 x.2.1 x.2.2 (normColsOf xs))))).filter
          (valueIsPresent res.cols)).length ∧
      res.outlierRowsRemoved = res.rowsAfterNullFilter - res.rows.length := by
  unfold clean_and_unpack_pfas at hok
  rcases hn : normalized t with e | xs <;> rw [hn] at hok
  · exact absurd hok (by simp)
  · simp only at hok
    split at hok
    · cases hok
      exact ⟨xs, rfl, rfl, by assumption, rfl, rfl, rfl⟩
    · exact absurd hok (by simp)

/-! ## Concrete sample data used by the witnesses -/

/-! ## Claims -/

/-- C1: for every input wide table, every row in the table returned by
clean_and_unpack_pfas has a non-missing numeric `value`: the `value` column
of every output row holds an actual number. -/
theorem tidy_output_value_numeric (t : WideTable) (res : TidyResult)
    (hok : clean_and_unpack_pfas t = .ok res) :
    ∀ row ∈ res.rows, ∃ q : Rat, getCol res.cols row "value" = some (.num q) := by
  obtain ⟨xs, -, -, -, hrows, -, -⟩ := clean_ok_inversion hok
  intro row hrow
  rw [hrows] at hrow
  obtain ⟨q, hq, -⟩ := valueWithinBound_spec (List.of_mem_filter hrow)
  exact ⟨q, hq⟩

theorem tidy_output_value_numeric_w :
    ∃ q : Rat, getCol sampleTidy.cols sampleRow "value" = some (.num q) :=
  tidy_output_value_numeric sampleWide sampleTidy rfl sampleRow
    (by simp [sampleTidy])

/-- C5: under the outlier policy of clean_and_unpack_pfas, every output row
has a numeric `value` of at most 100000 (every row exceeding the bound is
dropped), and the count of rows removed by this rule is the separate
`outlierRowsRemoved` report, the difference between the row count after the
missing-value drop and the final row count. -/
theorem tidy_outlier_rule (t : WideTable) (res : TidyResult)
    (hok : clean_and_unpack_pfas t = .ok res) :
    (∀ row ∈ res.rows,
      ∃ q : Rat, getCol res.cols row "value" = some (.num q) ∧ q ≤ 100000) ∧
    res.outlierRowsRemoved + res.rows.length = res.rowsAfterNullFilter := by
  obtain ⟨xs, -, -, -, hrows, hn1, hrem⟩ := clean_ok_inversion hok
  constructor
  · intro row hrow
    rw [hrows] at hrow
    exact valueWithinBound_spec (List.of_mem_filter hrow)
  · rw [hrem, hn1, hrows]
    exact Nat.sub_add_cancel (List.length_filter_le _ _)

theorem tidy_outlier_rule_w :
    (∃ q : Rat, getCol sampleTidy.cols sampleRow "value" = some (.num q) ∧
      q ≤ 100000) ∧
    sampleTidy.outlierRowsRemoved + sampleTidy.rows.length =
      sampleTidy.rowsAfterNullFilter :=
  ⟨(tidy_outlier_rule sampleWide sampleTidy rfl).1 sampleRow (by simp [sampleTidy]),
   (tidy_outlier_rule sampleWide sampleTidy rfl).2⟩

theorem axisGap_eq_zero {a b x : Rat} (ha : a ≤ x) (hb : x ≤ b) :
    axisGap a b x = 0 := by
  unfold axisGap
  rw [max_eq_left (sub_nonpos.mpr hb), max_eq_right (sub_nonpos.mpr ha)]

theorem withinBuffer_mono {geoms : List Rect} {d1 d2 : Rat} {p : Rat × Rat}
    (hd : d1 ≤ d2) (h : withinBuffer geoms d1 p = true) :
    withinBuffer geoms d2 p = true := by
  simp only [withinBuffer, List.any_eq_true] at h ⊢
  obtain ⟨R, hR, hP⟩ := h
  refine ⟨R, hR, ?_⟩
  rcases le_or_lt d1 0 with h1 | h1
  · rw [if_pos h1] at hP
    simp only [inOpenRect, shrinkRect, Bool.and_eq_true, decide_eq_true_eq] at hP
    obtain ⟨⟨⟨hxa, hxb⟩, hya⟩, hyb⟩ := hP
    rcases le_or_lt d2 0 with h2 | h2
    · rw [if_pos h2]
      simp only [inOpenRect, shrinkRect, Bool.and_eq_true, decide_eq_true_eq]
      refine ⟨⟨⟨?_, ?_⟩, ?_⟩, ?_⟩ <;> linarith
    · rw [if_neg (not_le.mpr h2), decide_eq_true_eq, distSq,
        axisGap_eq_zero (by linarith) (by linarith),
        axisGap_eq_zero (by linarith) (by linarith)]
      have := mul_pos h2 h2
      norm_num
      linarith
  · rw [if_neg (not_le.mpr h1), decide_eq_true_eq] at hP
    rw [if_neg (not_le.mpr (lt_of_lt_of_le h1 hd)), decide_eq_true_eq]
    have hsq : d1 * d1 ≤ d2 * d2 :=
      mul_le_mul hd hd h1.le (le_trans h1.le hd)
    linarith

/-- C3: the result of filter_points_by_distance is a subset by identity of
the input point collection - every returned row is literally a row of the
input frame, carrying its original pre-reprojection coordinates and
columns - and the returned frame keeps the input CRS, except on the
CRS-error path where it is the empty frame.  The metric reprojection is
never exposed, and an empty row list is a possible value. -/
theorem filter_result_subset (Tp : CoordMap) (Tg : RectMap)
    (pts : PointsGDF) (area : AreaGDF) (d : Rat) :
    (∀ r ∈ (filter_points_by_distance Tp Tg pts area d).rows, r ∈ pts.rows) ∧
    ((filter_points_by_distance Tp Tg pts area d).crs = pts.crs ∨
      filter_points_by_distance Tp Tg pts area d = emptyGDF) := by
  rcases hp : pts.crs with _ | pc
  · refine ⟨?_, Or.inr ?_⟩ <;> simp [filter_points_by_distance, hp, emptyGDF]
  · rcases ha : area.crs with _ | ac
    · refine ⟨?_, Or.inr ?_⟩ <;> simp [filter_points_by_distance, hp, ha, emptyGDF]
    · refine ⟨?_, Or.inl (by simp [filter_points_by_distance, hp, ha])⟩
      simp only [filter_points_by_distance, hp, ha]
      intro r hr
      rw [List.mem_flatten] at hr
      obtain ⟨s, hs, hrs⟩ := hr
      obtain ⟨l, -, rfl⟩ := List.mem_map.mp hs
      exact List.mem_of_mem_filter hrs

theorem filter_result_subset_w : samplePoint ∈ samplePts.rows :=
  (filter_result_subset idMapC idMapR samplePts sampleArea 1).1 samplePoint
    (by norm_num [filter_points_by_distance, samplePts, sampleArea, idMapC,
      idMapR, metric_crs, withinBuffer, distSq, axisGap, samplePoint,
      shrinkRect, inOpenRect, max_def])

/-- C6: for a fixed point collection and area and distances d1 <= d2, every
point selected at distance d1 is also selected at distance d2 - growing the
buffer can only add points, never remove any. -/
theorem filter_distance_monotone (Tp : CoordMap) (Tg : RectMap)
    (pts : PointsGDF) (area : AreaGDF) (d1 d2 : Rat) (hd : d1 ≤ d2) :
    ∀ r ∈ (filter_points_by_distance Tp Tg pts area d1).rows,
      r ∈ (filter_points_by_distance Tp Tg pts area d2).rows := by
  rcases hp : pts.crs with _ | pc
  · simp [filter_points_by_distance, hp, emptyGDF]
  · rcases ha : area.crs with _ | ac
    · simp [filter_points_by_distance, hp, ha, emptyGDF]
    · simp only [filter_points_by_distance, hp, ha]
      intro r hr
      rw [List.mem_flatten] at hr ⊢
      obtain ⟨s, hs, hrs⟩ := hr
      obtain ⟨l, hl, rfl⟩ := List.mem_map.mp hs
      obtain ⟨rm, hrm, rfl⟩ := List.mem_map.mp hl
      refine ⟨pts.rows.filter (fun r => r.idx == rm.idx),
        List.mem_map.mpr ⟨rm.idx, List.mem_map.mpr ⟨rm, ?_, rfl⟩, rfl⟩, hrs⟩
      have hmf := List.mem_filter.mp hrm
      exact List.mem_filter.mpr ⟨hmf.1, withinBuffer_mono hd hmf.2⟩

theorem filter_distance_monotone_w :
    samplePoint ∈ (filter_points_by_distance idMapC idMapR samplePts
      sampleArea 2).rows :=
  filter_distance_monotone idMapC idMapR samplePts sampleArea 1 2
    (by norm_num) samplePoint
    (by norm_num [filter_points_by_distance, samplePts, sampleArea, idMapC,
      idMapR, metric_crs, withinBuffer, distSq, axisGap, samplePoint,
      shrinkRect, inOpenRect, max_def])

/-- C7: when reprojection fails because an input frame lacks a declared
CRS, filter_points_by_distance reports the error and returns the empty
GeoDataFrame (no rows and no CRS) instead of raising.  A successful run
instead returns a frame carrying the input CRS (see C3), which is how a
caller can distinguish the error-empty frame from a genuinely empty match. -/
theorem filter_crs_error_empty (Tp : CoordMap) (Tg : RectMap)
    (pts : PointsGDF) (area : AreaGDF) (d : Rat)
    (h : pts.crs = none ∨ area.crs = none) :
    filter_points_by_distance Tp Tg pts area d = emptyGDF := by
  rcases h with h | h
  · simp [filter_points_by_distance, h]
  · rcases hp : pts.crs with _ | pc <;> simp [filter_points_by_distance, hp, h]

theorem filter_crs_error_empty_w :
    filter_points_by_distance idMapC idMapR ⟨none, [samplePoint]⟩
      sampleArea 5 = emptyGDF :=
  filter_crs_error_empty idMapC idMapR ⟨none, [samplePoint]⟩ sampleArea 5
    (Or.inl rfl)

theorem shrinkRect_neg_zero (R : Rect) : shrinkRect R (-0) = R := by
  simp [shrinkRect]

/-- C4 counterexample: the point (0,0) lies exactly on the boundary of the
unit square (in the closed square but not in its interior), yet
filter_points_by_distance with distance 0 returns no rows for it: shapely
`within` holds only on the interior, so the selection at distance 0 is
boundary-EXclusive, contradicting the claim. -/
theorem filter_boundary_point_excluded_cex :
    (inClosedRect unitSquare (0, 0) = true ∧
      inOpenRect unitSquare (0, 0) = false) ∧
    (filter_points_by_distance idMapC idMapR boundaryPts squareArea 0).rows
      = [] := by
  refine ⟨⟨rfl, rfl⟩, ?_⟩
  norm_num [filter_points_by_distance, boundaryPts, squareArea, idMapC,
    idMapR, metric_crs, withinBuffer, shrinkRect, inOpenRect, boundaryPoint,
    unitSquare]

/-- C4 (amended): running filter_points_by_distance with distance 0 on a
point lying exactly on the polygon boundary EXCLUDES that point: `within`
selects interiors only, so whenever no input point lies in the open
interior of any reprojected area geometry (in particular when all points
lie on the boundary), the result at distance 0 has no rows. -/
theorem filter_distance_zero_boundary_exclusive
    (Tp : CoordMap) (Tg : RectMap) (pts : PointsGDF) (area : AreaGDF)
    (pc ac : String) (hp : pts.crs = some pc) (ha : area.crs = some ac)
    (hb : ∀ r ∈ pts.rows, ∀ R ∈ area.geoms,
      inOpenRect (Tg ac metric_crs R) (Tp pc metric_crs (r.x, r.y)) = false) :
    (filter_points_by_distance Tp Tg pts area 0).rows = [] := by
  simp only [filter_points_by_distance, hp, ha]
  rw [List.eq_nil_iff_forall_not_mem]
  intro r hr
  rw [List.mem_flatten] at hr
  obtain ⟨s, hs, -⟩ := hr
  obtain ⟨l, hl, rfl⟩ := List.mem_map.mp hs
  obtain ⟨rm, hrm, rfl⟩ := List.mem_map.mp hl
  have hmf := List.mem_filter.mp hrm
  obtain ⟨r0, hr0, rfl⟩ := List.mem_map.mp hmf.1
  have hpred := hmf.2
  simp only [withinBuffer, List.any_eq_true] at hpred
  obtain ⟨R2, hR2, hin⟩ := hpred
  obtain ⟨R, hR, rfl⟩ := List.mem_map.mp hR2
  rw [if_pos le_rfl, shrinkRect_neg_zero] at hin
  have hfalse := hb r0 hr0 R hR
  simp only [Prod.mk.eta] at hin
  rw [hfalse] at hin
  exact Bool.noConfusion hin

theorem filter_distance_zero_boundary_exclusive_w :
    (filter_points_by_distance idMapC idMapR boundaryPts squareArea 0).rows
      = [] := by
  refine filter_distance_zero_boundary_exclusive idMapC idMapR boundaryPts
    squareArea "EPSG:28992" "EPSG:28992" rfl rfl ?_
  intro r hr R hR
  simp only [boundaryPts, List.mem_singleton] at hr
  simp only [squareArea, List.mem_singleton] at hR
  subst hr
  subst hR
  rfl

theorem rowItems_of_bad {c : Cell} (h : cellBad c = true) : rowItems c = [] := by
  cases c with
  | missing => rfl
  | malformed => rfl
  | parsed j => exact absurd h (by simp [cellBad])

theorem enumFlat_set (n : Nat) (rows : List (List PyVal × Cell)) (i : Nat)
    (vi : List PyVal) (c c' : Cell) (hget : rows[i]? = some (vi, c))
    (hc : rowItems c = []) (hc' : rowItems c' = []) :
    ((enumFromN n (rows.set i (vi, c'))).map explodeRowF).flatten =
    ((enumFromN n rows).map explodeRowF).flatten := by
  induction rows generalizing n i with
  | nil => simp at hget
  | cons hd tl ih =>
    cases i with
    | zero =>
      have hhd : hd = (vi, c) := by simpa using hget
      subst hhd
      simp [enumFromN, explodeRowF, hc, hc']
    | succ i2 =>
      have hget2 : tl[i2]? = some (vi, c) := by simpa using hget
      simp only [List.set_cons_succ, enumFromN, List.map_cons, List.flatten_cons]
      rw [ih (n + 1) i2 hget2]

theorem clean_congr {t t' : WideTable} (hcols : t.cols = t'.cols)
    (he : explodedKept t = explodedKept t') :
    clean_and_unpack_pfas t = clean_and_unpack_pfas t' := by
  simp only [clean_and_unpack_pfas, normalized, finalCols, leftColsT, he, hcols]

/-- C2 counterexample: the original claim fails in both directions.  A
single-row table whose `pfas_values` cell is missing makes the run raise
(KeyError from `dropna(subset=['value'])`, since the joined table then has
no `value` column), and a cell holding valid JSON that is not a list of
objects (here the JSON text "hello") is not treated as an empty list: its
element reaches `pd.json_normalize`, which raises on a non-dict element
even though another row supplies a `value` column. -/
theorem tidy_bad_cell_cex :
    clean_and_unpack_pfas ⟨[], [([], .missing)]⟩ = .error "KeyError: value" ∧
    clean_and_unpack_pfas ⟨[], [([], .parsed (.str "hello")),
        ([], .parsed (.arr [.obj (.ofList [("value", .num 1)])]))]⟩ =
      .error "json_normalize: data element is not a dict" :=
  ⟨rfl, rfl⟩

/-- C2 (amended): a row whose `pfas_values` cell is missing or fails to
parse as JSON is treated exactly as if it held the explicitly parsed empty
list `[]`: replacing such a cell by a parsed empty array leaves the entire
result of clean_and_unpack_pfas unchanged, so the row contributes zero
output rows and never by itself changes whether the run raises.  Contrary
to the original claim, a cell that parses to valid JSON that is NOT a list
of objects is not treated as empty (its elements reach json_normalize,
which raises on any non-dict element), and a run whose joined table ends up
with no `value` column raises KeyError even when every bad cell was
silently dropped - see the counterexample. -/
theorem tidy_bad_cell_as_empty_list (t : WideTable) (i : Nat)
    (vi : List PyVal) (c : Cell) (hget : t.rows[i]? = some (vi, c))
    (hbad : cellBad c = true) :
    clean_and_unpack_pfas t =
      clean_and_unpack_pfas ⟨t.cols, t.rows.set i (vi, .parsed (.arr []))⟩ :=
  clean_congr rfl
    ((enumFlat_set 0 t.rows i vi c (.parsed (.arr [])) hget
      (rowItems_of_bad hbad) rfl).symm)

theorem tidy_bad_cell_as_empty_list_w :
    clean_and_unpack_pfas wBadWide =
      clean_and_unpack_pfas ⟨wBadWide.cols,
        wBadWide.rows.set 0 ([some (.num 9)], .parsed (.arr []))⟩ :=
  tidy_bad_cell_as_empty_list wBadWide 0 [some (.num 9)] .malformed rfl rfl

theorem colContains_iff {L : List String} {c : String} :
    colContains L c = true ↔ c ∈ L := by
  induction L with
  | nil => simp [colContains, firstIdx]
  | cons x xs ih =>
    by_cases hx : x = c
    · simp [colContains, firstIdx, hx]
    · have hstep : colContains (x :: xs) c = colContains xs c := by
        simp only [colContains, firstIdx, if_neg hx]
        cases firstIdx xs c <;> simp
      rw [hstep, ih, List.mem_cons]
      exact ⟨Or.inr, fun h => h.resolve_left (fun he => hx he.symm)⟩

theorem getCol_cons (x : String) (xs : List String) (v : PyVal)
    (vs : List PyVal) (c : String) :
    getCol (x :: xs) (v :: vs) c = if x = c then v else getCol xs vs c := by
  by_cases hx : x = c
  · simp [getCol, firstIdx, hx]
  · simp only [getCol, firstIdx, if_neg hx]
    cases firstIdx xs c <;> simp

theorem getCol_map_self {L : List String} {f : String → PyVal} {c : String}
    (h : colContains L c = true) : getCol L (L.map f) c = f c := by
  induction L with
  | nil => simp [colContains, firstIdx] at h
  | cons x xs ih =>
    rw [List.map_cons, getCol_cons]
    by_cases hx : x = c
    · rw [if_pos hx, hx]
    · rw [if_neg hx]
      apply ih
      simpa [colContains, firstIdx, hx] using h

theorem cityMatch_spec {v : PyVal} (h : cityMatch v = true) :
    ∃ s : String, v = some (.str s) ∧
      (stripChars s.toList).map Char.toLower = "amsterdam".toList := by
  rcases v with _ | j
  · exact absurd h (by simp [cityMatch])
  · cases j <;> simp_all [cityMatch]

/-- C9: in the end-to-end pipeline tail, when the merged table has a `city`
column, every row written to the output has a city value that, stripped of
surrounding whitespace and lowercased, reads "amsterdam" (rows with a
missing or non-string city are dropped); when the `city` column is absent,
the filter is skipped with a warning and no rows are removed by it. -/
theorem main_city_filter (cols : List String) (rows : List (List PyVal)) :
    (colContains cols "city" = true →
      (finalizeOutput cols rows).cityFilterSkipped = false ∧
      ∀ r ∈ (finalizeOutput cols rows).rows,
        ∃ s : String,
          getCol (finalizeOutput cols rows).cols r "city" = some (.str s) ∧
          (stripChars s.toList).map Char.toLower = "amsterdam".toList) ∧
    (colContains cols "city" = false →
      (finalizeOutput cols rows).cityFilterSkipped = true ∧
      (finalizeOutput cols rows).rows.length = rows.length) := by
  constructor
  · intro hc
    refine ⟨by simp [finalizeOutput, hc], ?_⟩
    intro r hr
    simp only [finalizeOutput, hc, if_true] at hr ⊢
    obtain ⟨r0, hr0, rfl⟩ := List.mem_map.mp hr
    obtain ⟨s, hs, hams⟩ := cityMatch_spec (List.mem_filter.mp hr0).2
    have hcityex : colContains
        (final_columns_to_keep.filter (fun c => colContains cols c)) "city" = true := by
      rw [colContains_iff]
      exact List.mem_filter.mpr ⟨by simp [final_columns_to_keep], hc⟩
    rw [getCol_map_self hcityex, hs]
    exact ⟨s, rfl, hams⟩
  · intro hc
    refine ⟨by simp [finalizeOutput, hc], ?_⟩
    simp [finalizeOutput, hc]

theorem main_city_filter_w :
    (finalizeOutput ["city"] [[some (.str " Amsterdam ")], [none]]).cityFilterSkipped
        = false ∧
    ∃ s : String,
      getCol (finalizeOutput ["city"] [[some (.str " Amsterdam ")], [none]]).cols
        [some (.str " Amsterdam ")] "city" = some (.str s) ∧
      (stripChars s.toList).map Char.toLower = "amsterdam".toList :=
  ⟨((main_city_filter ["city"] [[some (.str " Amsterdam ")], [none]]).1 rfl).1,
   ((main_city_filter ["city"] [[some (.str " Amsterdam ")], [none]]).1 rfl).2
     [some (.str " Amsterdam ")]
     (show [some (.str " Amsterdam ")] ∈ [[some (Json.str " Amsterdam ")]] from
       List.mem_singleton.mpr rfl)⟩

theorem filter_idx_unique {rows : List GeoPoint}
    (hnd : (rows.map GeoPoint.idx).Nodup) {r0 : GeoPoint} (h : r0 ∈ rows) :
    rows.filter (fun r => r.idx == r0.idx) = [r0] := by
  induction rows with
  | nil => simp at h
  | cons a tl ih =>
    rw [List.map_cons, List.nodup_cons] at hnd
    rcases List.mem_cons.mp h with rfl | htl
    · rw [List.filter_cons_of_pos (by simp)]
      have htail : tl.filter (fun r => r.idx == r0.idx) = [] := by
        rw [List.filter_eq_nil_iff]
        intro b hb hbe
        rw [beq_iff_eq] at hbe
        exact hnd.1 (hbe ▸ List.mem_map_of_mem GeoPoint.idx hb)
      rw [htail]
    · have hne : a.idx ≠ r0.idx := fun he =>
        hnd.1 (he ▸ List.mem_map_of_mem GeoPoint.idx htl)
      rw [List.filter_cons_of_neg (by simp [hne])]
      exact ih hnd.2 htl

theorem loc_map_eq {rows : List GeoPoint}
    (hnd : (rows.map GeoPoint.idx).Nodup) {sub : List GeoPoint}
    (hsub : ∀ x ∈ sub, x ∈ rows) :
    ((sub.map GeoPoint.idx).map
      (fun l => rows.filter (fun r => r.idx == l))).flatten = sub := by
  induction sub with
  | nil => simp
  | cons x xs ih =>
    simp only [List.map_cons, List.flatten_cons]
    rw [filter_idx_unique hnd (hsub x (List.mem_cons_self x xs)),
      ih (fun y hy => hsub y (List.mem_cons_of_mem x hy))]
    rfl

/-- C10: for an input point collection with unique row indices,
filter_points_by_distance returns the matching points in input order with
no duplication: the result rows form a sublist of the input rows, and the
result's index labels are themselves duplicate-free. -/
theorem filter_order_no_dup (Tp : CoordMap) (Tg : RectMap)
    (pts : PointsGDF) (area : AreaGDF) (d : Rat)
    (hnd : (pts.rows.map GeoPoint.idx).Nodup) :
    (filter_points_by_distance Tp Tg pts area d).rows.Sublist pts.rows ∧
    ((filter_points_by_distance Tp Tg pts area d).rows.map
        GeoPoint.idx).Nodup := by
  rcases hp : pts.crs with _ | pc
  · constructor <;> simp [filter_points_by_distance, hp, emptyGDF]
  rcases ha : area.crs with _ | ac
  · constructor <;> simp [filter_points_by_distance, hp, ha, emptyGDF]
  simp only [filter_points_by_distance, hp, ha]
  have hrows : (List.map (fun r : GeoPoint => r.idx)
      (List.filter (fun r => withinBuffer (area.geoms.map (Tg ac metric_crs)) d (r.x, r.y))
        (pts.rows.map (fun r => ⟨r.idx, (Tp pc metric_crs (r.x, r.y)).1,
          (Tp pc metric_crs (r.x, r.y)).2, r.attrs⟩)))) =
      (pts.rows.filter (fun r => withinBuffer (area.geoms.map (Tg ac metric_crs)) d
        ((Tp pc metric_crs (r.x, r.y)).1, (Tp pc metric_crs (r.x, r.y)).2))).map
        GeoPoint.idx := by
    rw [List.filter_map]
    rw [List.map_map]
    exact List.map_congr_left (fun a _ => rfl)
  rw [hrows]
  have hsel := @loc_map_eq pts.rows hnd
    (pts.rows.filter (fun r =>
      withinBuffer (area.geoms.map (Tg ac metric_crs)) d
        ((Tp pc metric_crs (r.x, r.y)).1, (Tp pc metric_crs (r.x, r.y)).2)))
    (fun x hx => List.mem_of_mem_filter hx)
  rw [hsel]
  exact ⟨List.filter_sublist pts.rows,
    ((List.filter_sublist pts.rows).map GeoPoint.idx).nodup hnd⟩

theorem filter_order_no_dup_w :
    (filter_points_by_distance idMapC idMapR samplePts sampleArea 1).rows.Sublist
      samplePts.rows ∧
    ((filter_points_by_distance idMapC idMapR samplePts
      sampleArea 1).rows.map GeoPoint.idx).Nodup :=
  filter_order_no_dup idMapC idMapR samplePts sampleArea 1
    (by simp [samplePts, samplePoint])

theorem append_pfas_cancel {s t : String} (h : s ++ "_pfas" = t ++ "_pfas") :
    s = t := by
  have h2 : (s ++ "_pfas").data = (t ++ "_pfas").data := by rw [h]
  rw [String.data_append, String.data_append] at h2
  exact String.ext (List.append_cancel_right h2)

theorem suffixName_eq_unit_pfas {L : List String} {c : String}
    (h : suffixName L c = "unit_pfas") : c = "unit" ∨ c = "unit_pfas" := by
  unfold suffixName at h
  split at h
  · exact Or.inl (append_pfas_cancel h)
  · exact Or.inr h

theorem colContains_cons (x : String) (xs : List String) (c : String) :
    colContains (x :: xs) c = (decide (x = c) || colContains xs c) := by
  by_cases hx : x = c
  · simp [colContains, firstIdx, hx]
  · simp only [colContains, firstIdx, if_neg hx]
    cases firstIdx xs c <;> simp [hx]

theorem firstIdx_cons (x : String) (xs : List String) (c : String) :
    firstIdx (x :: xs) c =
      if x = c then some 0 else (firstIdx xs c).map (· + 1) := rfl

theorem firstIdx_lt_length {L : List String} {c : String} {j : Nat}
    (h : firstIdx L c = some j) : j < L.length := by
  induction L generalizing j with
  | nil => simp [firstIdx] at h
  | cons x xs ih =>
    rw [firstIdx_cons] at h
    by_cases hx : x = c
    · rw [if_pos hx] at h
      injection h with h
      subst h
      simp
    · rw [if_neg hx] at h
      cases hfi : firstIdx xs c with
      | none => rw [hfi] at h; exact absurd h (by simp)
      | some j2 =>
        rw [hfi] at h
        injection h with h
        subst h
        have := ih hfi
        simp only [List.length_cons]
        omega

theorem firstIdx_append_left {A : List String} {c : String}
    (h : colContains A c = true) (B : List String) :
    firstIdx (A ++ B) c = firstIdx A c := by
  induction A with
  | nil => simp [colContains, firstIdx] at h
  | cons x xs ih =>
    rw [List.cons_append, firstIdx_cons, firstIdx_cons]
    by_cases hx : x = c
    · rw [if_pos hx, if_pos hx]
    · rw [colContains_cons] at h
      have h2 : colContains xs c = true := by simpa [hx] using h
      rw [if_neg hx, if_neg hx, ih h2]

theorem firstIdx_append_right {A : List String} {c : String}
    (h : colContains A c = false) (B : List String) :
    firstIdx (A ++ B) c = (firstIdx B c).map (· + A.length) := by
  induction A with
  | nil =>
    simp only [List.nil_append, List.length_nil]
    cases firstIdx B c <;> simp
  | cons x xs ih =>
    rw [colContains_cons] at h
    have hx : x ≠ c := by
      intro he
      simp [he] at h
    have hxs : colContains xs c = false := by
      simpa [hx] using h
    rw [List.cons_append, firstIdx_cons, if_neg hx, ih hxs]
    cases firstIdx B c with
    | none => rfl
    | some j =>
      show some (j + xs.length + 1) = some (j + (xs.length + 1))
      rw [Nat.add_assoc]

theorem getCol_append_left {A B : List String} {v w : List PyVal} {c : String}
    (hA : colContains A c = true) (hlen : v.length = A.length) :
    getCol (A ++ B) (v ++ w) c = getCol A v c := by
  unfold getCol
  rw [firstIdx_append_left hA]
  cases hfi : firstIdx A c with
  | none => rfl
  | some j =>
    have hj : j < A.length := firstIdx_lt_length hfi
    show ((v ++ w)[j]?).getD none = (v[j]?).getD none
    rw [List.getElem?_append, if_pos (by omega : j < v.length)]

theorem getCol_append_right {A B : List String} {v w : List PyVal} {c : String}
    (hA : colContains A c = false) (hlen : v.length = A.length) :
    getCol (A ++ B) (v ++ w) c = getCol B w c := by
  unfold getCol
  rw [firstIdx_append_right hA]
  cases hfi : firstIdx B c with
  | none => rfl
  | some j =>
    show ((v ++ w)[j + A.length]?).getD none = (w[j]?).getD none
    rw [List.getElem?_append, if_neg (by omega : ¬ j + A.length < v.length)]
    have harith : j + A.length - v.length = j := by omega
    rw [harith]

theorem getCol_sfx {nc : List String} {obs : List (String × PyVal)}
    {L : List String} (hunit : colContains nc "unit" = true)
    (hnp : colContains nc "unit_pfas" = false)
    (hL : colContains L "unit" = true) :
    getCol (nc.map (suffixName L)) (nc.map (lookupA obs)) "unit_pfas" =
      lookupA obs "unit" := by
  induction nc with
  | nil => simp [colContains, firstIdx] at hunit
  | cons x xs ih =>
    rw [List.map_cons, List.map_cons, getCol_cons]
    rw [colContains_cons] at hunit hnp
    by_cases hx : x = "unit"
    · subst hx
      rw [if_pos (by simp [suffixName, hL])]
    · have hxp : x ≠ "unit_pfas" := by
        intro he
        simp [he] at hnp
      have hsfx : ¬ suffixName L x = "unit_pfas" := by
        intro he
        rcases suffixName_eq_unit_pfas he with h1 | h1
        exacts [hx h1, hxp h1]
      rw [if_neg hsfx]
      exact ih (by simpa [hx] using hunit) (by simpa [hxp] using hnp)

/-- C8: when the wide-form columns and the flattened observations both
define a column named `unit`, the joined output of clean_and_unpack_pfas
keeps the observation's column under the suffixed name `unit_pfas` (the
suffixed name appears in the result columns), and the original `unit`
column is neither overwritten nor collided with: on every joined row,
reading `unit` returns the original row's value and reading `unit_pfas`
returns the observation's value.  The labelling assumptions (neither the
left columns nor the normalized columns already contain `unit_pfas`)
exclude degenerate duplicate labels, under which pandas column access is
not well defined either. -/
theorem tidy_unit_suffix (t : WideTable) (res : TidyResult)
    (xs : List (Nat × List PyVal × List (String × PyVal)))
    (hok : clean_and_unpack_pfas t = .ok res)
    (hn : normalized t = .ok xs)
    (hu : colContains t.cols "unit" = true)
    (hnc : colContains (normColsOf xs) "unit" = true)
    (hupL : colContains (leftColsT t) "unit_pfas" = false)
    (hupN : colContains (normColsOf xs) "unit_pfas" = false) :
    colContains res.cols "unit_pfas" = true ∧
    ∀ x ∈ xs, x.2.1.length = t.cols.length →
      getCol res.cols (joinRow x.1 x.2.1 x.2.2 (normColsOf xs)) "unit"
        = getCol t.cols x.2.1 "unit" ∧
      getCol res.cols (joinRow x.1 x.2.1 x.2.2 (normColsOf xs)) "unit_pfas"
        = lookupA x.2.2 "unit" := by
  obtain ⟨xs2, hn2, hcols, -, -, -, -⟩ := clean_ok_inversion hok
  rw [hn] at hn2
  injection hn2 with hxs
  subst hxs
  have hLu : colContains (leftColsT t) "unit" = true := by
    rw [leftColsT, colContains_cons]
    simp [hu]
  have hLp : colContains t.cols "unit_pfas" = false := by
    rw [leftColsT, colContains_cons] at hupL
    simpa using hupL
  constructor
  · rw [hcols, colContains_iff, finalCols, List.mem_append]
    right
    exact List.mem_map.mpr ⟨"unit", colContains_iff.mp hnc,
      by simp [suffixName, hLu]⟩
  · intro x hx hlen
    rw [hcols]
    simp only [finalCols, leftColsT, joinRow, List.cons_append]
    constructor
    · rw [getCol_cons, if_neg (by decide)]
      rw [getCol_append_left hu hlen]
    · rw [getCol_cons, if_neg (by decide)]
      rw [getCol_append_right hLp hlen]
      exact getCol_sfx hnc hupN hLu

theorem tidy_unit_suffix_w :
    colContains wUnitTidy.cols "unit_pfas" = true ∧
    (getCol wUnitTidy.cols
        (joinRow 0 [some (.str "orig")] wUnitObs (normColsOf wUnitXs)) "unit"
      = getCol wUnitWide.cols [some (.str "orig")] "unit" ∧
     getCol wUnitTidy.cols
        (joinRow 0 [some (.str "orig")] wUnitObs (normColsOf wUnitXs)) "unit_pfas"
      = lookupA wUnitObs "unit") :=
  ⟨(tidy_unit_suffix wUnitWide wUnitTidy wUnitXs rfl rfl rfl rfl rfl rfl).1,
   (tidy_unit_suffix wUnitWide wUnitTidy wUnitXs rfl rfl rfl rfl rfl rfl).2
     (0, [some (.str "orig")], wUnitObs) (List.mem_singleton.mpr rfl) rfl⟩

